import Mathlib

/-
Verification of the resilient multi-source acquisition and alignment pipeline
of eia-salt-vs-price (src/eia_storage_plot/fetch.py), as a shallow embedding.

Dates are modelled as integers (days); a date d falls on the Friday anchor
weekday exactly when d % 7 = 4. Numeric values are rationals; a pandas NaN
value is modelled as `none` in an `Option Rat`. Raw payload cells are modelled
by the `Cell` type together with `parseDate` / `parseNum`, which stand for
`pd.to_datetime(..., errors="coerce")` and `pd.to_numeric(..., errors="coerce")`:
a cell either parses to a date, parses to a number, or parses to neither (NaN).
A Python exception is modelled with `Except`.
-/

namespace Eia

/-- A raw cell of an incoming payload (JSON field, spreadsheet cell, HTML table
cell). `date` parses as a date only, `num` parses as a number only, `blank`
parses as neither (pandas coerces it to NaT / NaN). -/
inductive Cell
  | date (d : Int)
  | num (q : Rat)
  | blank
  deriving DecidableEq

/-- Model of `pd.to_datetime(cell, errors="coerce")`: `none` is NaT. -/
def parseDate : Cell → Option Int
  | Cell.date d => some d
  | _ => none

/-- Model of `pd.to_numeric(cell, errors="coerce")`: `none` is NaN. -/
def parseNum : Cell → Option Rat
  | Cell.num q => some q
  | _ => none

/-- One row of the canonical two-column frame `(period, value)`.
`value = none` models a NaN in the value column (a period that failed to
parse is never stored, matching `dropna(subset=["period"])` downstream). -/
structure Obs where
  period : Int
  value : Option Rat
  deriving DecidableEq

/-- The canonical Series: list of rows of a two-column DataFrame, in row order. -/
abbrev Series := List Obs

/-- Comparison on rows by the period column. -/
def obsLe (x y : Obs) : Prop := x.period ≤ y.period

instance : DecidableRel obsLe := fun x y => Int.decLe x.period y.period

instance : IsTotal Obs obsLe := ⟨fun x y => Int.le_total x.period y.period⟩

instance : IsTrans Obs obsLe := ⟨fun _ _ _ h1 h2 => le_trans h1 h2⟩

/-- Model of `df.sort_values("period")`. -/
def sortByPeriod (l : Series) : Series := List.insertionSort obsLe l

theorem sortByPeriod_perm (l : Series) : (sortByPeriod l).Perm l :=
  List.perm_insertionSort obsLe l

theorem sortByPeriod_sorted (l : Series) : (sortByPeriod l).Pairwise obsLe :=
  List.sorted_insertionSort obsLe l

/-- Model of `_clip` (fetch.py line 163): keep rows with
`start <= period <= end`, both bounds inclusive. -/
def clip (df : Series) (start stop : Int) : Series :=
  df.filter (fun o => decide (start ≤ o.period) && decide (o.period ≤ stop))

theorem filter_idem {α : Type} (p : α → Bool) (l : List α) :
    (l.filter p).filter p = l.filter p := by
  induction l with
  | nil => rfl
  | cons a t ih =>
    cases hp : p a <;> simp [List.filter_cons, hp, ih]

/-- C8: for every Series and every window `[start, end]` with `start ≤ end`,
`clip` returns exactly the rows whose period lies in the closed interval
(both bounds inclusive), and `clip` is idempotent: clipping an
already-clipped Series with the same window leaves it unchanged. -/
theorem c8_clip (s : Series) (start stop : Int) (hw : start ≤ stop) :
    (∀ o, o ∈ clip s start stop ↔ (o ∈ s ∧ start ≤ o.period ∧ o.period ≤ stop)) ∧
    clip (clip s start stop) start stop = clip s start stop := by
  refine ⟨fun o => ?_, filter_idem _ s⟩
  simp [clip, List.mem_filter, and_assoc]

/-- Witness for C8 at a concrete Series and window. -/
theorem c8_witness :
    clip (clip [Obs.mk 1 (some 2), Obs.mk 9 (some 3)] 0 5) 0 5 =
      clip [Obs.mk 1 (some 2), Obs.mk 9 (some 3)] 0 5 :=
  (c8_clip [Obs.mk 1 (some 2), Obs.mk 9 (some 3)] 0 5 (by decide)).2

/-
Source Chain Executor: `_try_chain` (fetch.py lines 201-217). Each zero-arg
callable either raises (modelled `Except.error ()`) or returns a DataFrame
(`Except.ok df`). The loop returns the first non-empty result; after the loop
it logs the last error, if any, and returns an empty DataFrame — there is no
raise statement on the exhausted path.
-/

/-- Model of `_try_chain`: first non-empty result, else the empty Series. -/
def try_chain : List (Except Unit Series) → Series
  | [] => []
  | Except.ok df :: rest => if df.isEmpty then try_chain rest else df
  | Except.error _ :: rest => try_chain rest

/-- C1 counterexample: a chain whose first source raises and whose second
returns an empty Series. `_try_chain` returns the empty Series to the caller
(its exhausted path has no raise), contradicting the claim that it raises a
`SourceChainExhausted` failure and never returns an empty Series. -/
theorem c1_counterexample :
    try_chain [Except.error (), Except.ok []] = ([] : Series) := rfl

/-- C1 (amended): for every chain of sources in which each attempt either
raises an exception or returns an empty Series, `_try_chain` returns the
empty Series to the caller (after logging the last error); it raises nothing,
and the failure surfaced to the operator comes later, from the Joiner's
empty-join diagnostic. -/
theorem c1_exhausted_returns_empty (atts : List (Except Unit Series))
    (h : ∀ a ∈ atts, ∀ df : Series, a = Except.ok df → df = []) :
    try_chain atts = [] := by
  induction atts with
  | nil => rfl
  | cons a rest ih =>
    cases a with
    | error e =>
      exact ih (fun b hb => h b (List.mem_cons_of_mem _ hb))
    | ok df =>
      have hdf : df = [] := h (Except.ok df) (List.mem_cons_self _ _) df rfl
      subst hdf
      exact ih (fun b hb => h b (List.mem_cons_of_mem _ hb))

/-- Witness for C1 (amended) at a concrete exhausted chain. -/
theorem c1_witness : try_chain [Except.error (), Except.ok [], Except.error ()] = [] :=
  c1_exhausted_returns_empty [Except.error (), Except.ok [], Except.error ()] (by
    intro a ha df hdf
    simp only [List.mem_cons, List.not_mem_nil, or_false] at ha
    rcases ha with rfl | rfl | rfl
    · exact Except.noConfusion hdf
    · injection hdf with h
      exact h.symm
    · exact Except.noConfusion hdf)

/-
Transport: `_http_get` (fetch.py lines 45-67). The outcome of each
`requests.get` call is either a response with a status code or a
network-level exception; `outcomes i` is the outcome of attempt `i`
(0-based). Inside the loop: a 5xx or 429 response sleeps `base ** attempt`
seconds and continues WITHOUT recording an exception; any other status goes
through `raise_for_status()`, which raises `requests.HTTPError` for
4xx — and `HTTPError` is a subclass of `RequestException`, so the
`except requests.RequestException` clause catches it, records it as
`last_exc`, sleeps and continues; a status below 400 is returned. After the
loop the recorded `last_exc` is re-raised, or a RuntimeError if none was
recorded. The model returns (result, number of attempts performed, list of
backoff waits in seconds).
-/

/-- Outcome of one `requests.get` call. -/
inductive HttpOutcome
  | resp (status : Nat)
  | netExc
  deriving DecidableEq

/-- The exception recorded in `last_exc`. -/
inductive Exc
  | http (status : Nat)
  | net
  deriving DecidableEq

/-- How `_http_get` ends. -/
inductive GetResult
  | ok (status : Nat)
  | raisedLast (e : Exc)
  | raisedRuntime
  deriving DecidableEq

/-- The default backoff base 1.7 of `_http_get`. -/
def backoffBase : Rat := 17 / 10

/-- One execution of the retry loop of `_http_get`, starting at attempt `i`
with `n` attempts remaining and `last` the recorded `last_exc`. -/
def httpGetGo (o : Nat → HttpOutcome) (b : Rat) :
    Nat → Nat → Option Exc → GetResult × Nat × List Rat
  | i, 0, last =>
    ((match last with
      | some e => GetResult.raisedLast e
      | none => GetResult.raisedRuntime), i, [])
  | i, n + 1, last =>
    match o i with
    | HttpOutcome.resp s =>
      if 500 ≤ s ∨ s = 429 then
        let r := httpGetGo o b (i + 1) n last
        (r.1, r.2.1, b ^ i :: r.2.2)
      else if 400 ≤ s then
        let r := httpGetGo o b (i + 1) n (some (Exc.http s))
        (r.1, r.2.1, b ^ i :: r.2.2)
      else (GetResult.ok s, i + 1, [])
    | HttpOutcome.netExc =>
      let r := httpGetGo o b (i + 1) n (some Exc.net)
      (r.1, r.2.1, b ^ i :: r.2.2)

/-- Model of `_http_get` with retry count `retries` and backoff base `b`. -/
def http_get (o : Nat → HttpOutcome) (retries : Nat) (b : Rat) :
    GetResult × Nat × List Rat :=
  httpGetGo o b 0 retries none

/-- C3: the code retries 4xx. With every attempt answered by HTTP 404,
`_http_get` performs all 6 attempts, sleeping the full backoff schedule
1.7^0 .. 1.7^5 between them, and only then re-raises the HTTPError — because
`raise_for_status()` raises inside the `try` block and `HTTPError` is a
`RequestException`, the broad `except` clause catches the client error and
retries it, contradicting the docstring's "backoff on 5xx/429 and network
exceptions". -/
theorem c3_retries_on_404 :
    http_get (fun _ => HttpOutcome.resp 404) 6 backoffBase =
      (GetResult.raisedLast (Exc.http 404), 6,
        (List.range 6).map (fun k => backoffBase ^ k)) := rfl

theorem httpGetGo_bounds (o : Nat → HttpOutcome) (b : Rat) :
    ∀ (n i : Nat) (last : Option Exc),
      (httpGetGo o b i n last).2.1 ≤ i + n ∧
      i ≤ (httpGetGo o b i n last).2.1 ∧
      (httpGetGo o b i n last).2.2 =
        (List.range (httpGetGo o b i n last).2.2.length).map (fun k => b ^ (i + k)) ∧
      ((httpGetGo o b i n last).2.2.length + i = (httpGetGo o b i n last).2.1 ∨
        (httpGetGo o b i n last).2.2.length + i + 1 = (httpGetGo o b i n last).2.1) := by
  intro n
  induction n with
  | zero =>
    intro i last
    refine ⟨by simp [httpGetGo], by simp [httpGetGo], by simp [httpGetGo], ?_⟩
    simp [httpGetGo]
  | succ n ih =>
    intro i last
    have step : ∀ last' : Option Exc,
        (httpGetGo o b (i + 1) n last').2.1 ≤ i + (n + 1) ∧
        i ≤ (httpGetGo o b (i + 1) n last').2.1 ∧
        (b ^ i :: (httpGetGo o b (i + 1) n last').2.2 =
          (List.range (b ^ i :: (httpGetGo o b (i + 1) n last').2.2).length).map
            (fun k => b ^ (i + k))) ∧
        ((b ^ i :: (httpGetGo o b (i + 1) n last').2.2).length + i =
            (httpGetGo o b (i + 1) n last').2.1 ∨
          (b ^ i :: (httpGetGo o b (i + 1) n last').2.2).length + i + 1 =
            (httpGetGo o b (i + 1) n last').2.1) := by
      intro last'
      obtain ⟨k1, k2, k3, k4⟩ := ih (i + 1) last'
      refine ⟨by omega, by omega, ?_, by simp only [List.length_cons]; omega⟩
      rw [List.length_cons, List.range_succ_eq_map, List.map_cons, List.map_map]
      have hfun : ((fun k => b ^ (i + k)) ∘ Nat.succ) = (fun k => b ^ (i + 1 + k)) := by
        funext k
        simp only [Function.comp_apply]
        congr 1
        omega
      rw [hfun]
      simp only [Nat.add_zero]
      exact congrArg (fun t => b ^ i :: t) k3
    cases ho : o i with
    | resp s =>
      by_cases h1 : 500 ≤ s ∨ s = 429
      · simpa only [httpGetGo, ho, if_pos h1] using step last
      · by_cases h2 : 400 ≤ s
        · simpa only [httpGetGo, ho, if_neg h1, if_pos h2] using step (some (Exc.http s))
        · refine ⟨?_, ?_, ?_, ?_⟩
          · simp only [httpGetGo, ho, if_neg h1, if_neg h2]
            omega
          · simp only [httpGetGo, ho, if_neg h1, if_neg h2]
            omega
          · simp [httpGetGo, ho, h1, h2]
          · simp only [httpGetGo, ho, if_neg h1, if_neg h2, List.length_nil]
            omega
    | netExc =>
      simpa only [httpGetGo, ho] using step (some Exc.net)

/-- C10: for every outcome sequence, `_http_get` with `retries` attempts
performs at most `retries` requests, the wait between attempt `k` and
attempt `k + 1` is `base ^ k` seconds, and the call always terminates,
either returning a response or raising after the final attempt (the model
is a total function whose result is one of the three terminal outcomes). -/
theorem c10_http_get_bounded (o : Nat → HttpOutcome) (retries : Nat) (b : Rat)
    (res : GetResult) (a : Nat) (ws : List Rat)
    (h : http_get o retries b = (res, a, ws)) :
    a ≤ retries ∧
    ws = (List.range ws.length).map (fun k => b ^ k) ∧
    ws.length ≤ a ∧ a ≤ ws.length + 1 ∧
    ((∃ s, res = GetResult.ok s) ∨ (∃ e, res = GetResult.raisedLast e) ∨
      res = GetResult.raisedRuntime) := by
  obtain ⟨k1, k2, k3, k4⟩ := httpGetGo_bounds o b retries 0 none
  rw [http_get] at h
  rw [h] at k1 k2 k3 k4
  simp only at k1 k2 k3 k4
  refine ⟨by omega, by simpa using k3, by omega, by omega, ?_⟩
  cases res with
  | ok s => exact Or.inl ⟨s, rfl⟩
  | raisedLast e => exact Or.inr (Or.inl ⟨e, rfl⟩)
  | raisedRuntime => exact Or.inr (Or.inr rfl)

/-- Witness for C10: with an immediate HTTP 200 and the default retry count
and backoff base, `_http_get` performs one attempt, which is at most 6. -/
theorem c10_witness :
    (http_get (fun _ => HttpOutcome.resp 200) 6 backoffBase).2.1 ≤ 6 :=
  (c10_http_get_bounded (fun _ => HttpOutcome.resp 200) 6 backoffBase
    (GetResult.ok 200) 1 [] rfl).1

/-
Column-Pair Detector (fetch.py: the loops of `_df_from_hist_xls`, lines
115-126, and `_df_from_hist_html`, lines 141-157). Both loops keep a running
`best`: a candidate is considered only when its score reaches the floor of
10, and it replaces the running best only when its score is STRICTLY greater
(`score > best[0]`), so among equal top scores the first-found candidate
wins. The accumulation is factored out as `bestCand` over a list of
(candidate, score) entries in evaluation order.
-/

/-- One iteration of the shared best-candidate update:
`best = (score, d) if (best is None or score > best[0]) else best`,
guarded by `if score >= 10`. -/
def chainStep {α : Type} (best : Option (α × Nat)) (c : α × Nat) : Option (α × Nat) :=
  if 10 ≤ c.2 then
    match best with
    | none => some c
    | some bst => if bst.2 < c.2 then some c else some bst
  else best

/-- The detector loop over the remaining candidates. -/
def bestCandAux {α : Type} : Option (α × Nat) → List (α × Nat) → Option (α × Nat)
  | best, [] => best
  | best, c :: cs => bestCandAux (chainStep best c) cs

/-- The detector's selection among scored candidates in evaluation order. -/
def bestCand {α : Type} (l : List (α × Nat)) : Option (α × Nat) :=
  bestCandAux none l

theorem chainStep_eq_none {α : Type} (best : Option (α × Nat)) (c : α × Nat) :
    chainStep best c = none ↔ best = none ∧ c.2 < 10 := by
  by_cases h10 : 10 ≤ c.2
  · cases best with
    | none => simp [chainStep, h10]
    | some bst =>
      by_cases hlt : bst.2 < c.2 <;> simp [chainStep, h10, hlt]
  · simp [chainStep, h10]
    omega

theorem chainStep_elig {α : Type} {best : Option (α × Nat)} {c : α × Nat}
    (hb : ∀ bst, best = some bst → 10 ≤ bst.2) :
    ∀ bst, chainStep best c = some bst → 10 ≤ bst.2 := by
  intro bst h
  by_cases h10 : 10 ≤ c.2
  · cases best with
    | none =>
      simp only [chainStep, h10, if_true] at h
      injection h with h1
      cases h1
      exact h10
    | some b0 =>
      by_cases hlt : b0.2 < c.2
      · simp only [chainStep, h10, if_true, hlt] at h
        injection h with h1
        cases h1
        exact h10
      · simp only [chainStep, h10, if_true, hlt, if_false] at h
        injection h with h1
        cases h1
        exact hb bst rfl
  · simp only [chainStep, h10, if_false] at h
    exact hb bst h

theorem chainStep_cases {α : Type} (best : Option (α × Nat)) (a : α × Nat) :
    (a.2 < 10 ∧ chainStep best a = best) ∨
    (10 ≤ a.2 ∧ best = none ∧ chainStep best a = some a) ∨
    (∃ b0, 10 ≤ a.2 ∧ best = some b0 ∧ b0.2 < a.2 ∧ chainStep best a = some a) ∨
    (∃ b0, 10 ≤ a.2 ∧ best = some b0 ∧ a.2 ≤ b0.2 ∧ chainStep best a = some b0) := by
  by_cases h10 : 10 ≤ a.2
  · cases best with
    | none => exact Or.inr (Or.inl ⟨h10, rfl, by simp [chainStep, h10]⟩)
    | some b0 =>
      by_cases hlt : b0.2 < a.2
      · exact Or.inr (Or.inr (Or.inl ⟨b0, h10, rfl, hlt, by simp [chainStep, h10, hlt]⟩))
      · exact Or.inr (Or.inr (Or.inr ⟨b0, h10, rfl, by omega, by simp [chainStep, h10, hlt]⟩))
  · exact Or.inl ⟨by omega, by simp [chainStep, h10]⟩

theorem bestCandAux_eq_none {α : Type} :
    ∀ (l : List (α × Nat)) (best : Option (α × Nat)),
      bestCandAux best l = none ↔ best = none ∧ ∀ c ∈ l, c.2 < 10 := by
  intro l
  induction l with
  | nil =>
    intro best
    simp [bestCandAux]
  | cons c cs ih =>
    intro best
    rw [bestCandAux, ih, chainStep_eq_none]
    constructor
    · rintro ⟨⟨hb, hc⟩, hall⟩
      refine ⟨hb, fun d hd => ?_⟩
      rcases List.mem_cons.mp hd with rfl | hd
      · exact hc
      · exact hall d hd
    · rintro ⟨hb, hall⟩
      exact ⟨⟨hb, hall c (List.mem_cons_self c cs)⟩,
        fun d hd => hall d (List.mem_cons_of_mem _ hd)⟩

theorem bestCandAux_spec {α : Type} :
    ∀ (l : List (α × Nat)) (best : Option (α × Nat)) (c : α × Nat),
      (∀ bst, best = some bst → 10 ≤ bst.2) →
      bestCandAux best l = some c →
      (best = some c ∧ ∀ d ∈ l, d.2 ≤ c.2) ∨
      (∃ l₁ l₂, l = l₁ ++ c :: l₂ ∧ 10 ≤ c.2 ∧
        (∀ bst, best = some bst → bst.2 < c.2) ∧
        (∀ d ∈ l₁, d.2 < c.2) ∧ (∀ d ∈ l₂, d.2 ≤ c.2)) := by
  intro l
  induction l with
  | nil =>
    intro best c hb h
    exact Or.inl ⟨h, by simp⟩
  | cons a as ih =>
    intro best c hb h
    rw [bestCandAux] at h
    have hb' := chainStep_elig (c := a) hb
    rcases ih (chainStep best a) c hb' h with ⟨hceq, hall⟩ |
      ⟨l₁, l₂, heq, hc10, hlt, hl₁, hl₂⟩
    · rcases chainStep_cases best a with ⟨ha10, hcs⟩ | ⟨ha10, hbn, hcs⟩ |
        ⟨b0, ha10, hbs, hblt, hcs⟩ | ⟨b0, ha10, hbs, hble, hcs⟩
      · rw [hcs] at hceq
        have hc10 : 10 ≤ c.2 := hb c hceq
        refine Or.inl ⟨hceq, fun d hd => ?_⟩
        rcases List.mem_cons.mp hd with rfl | hd
        · omega
        · exact hall d hd
      · rw [hcs] at hceq
        injection hceq with hca
        subst hca
        exact Or.inr ⟨[], as, by simp, ha10, by simp [hbn], by simp, hall⟩
      · rw [hcs] at hceq
        injection hceq with hca
        subst hca
        refine Or.inr ⟨[], as, by simp, ha10, ?_, by simp, hall⟩
        intro bst hbst
        rw [hbs] at hbst
        injection hbst with hb0
        cases hb0
        exact hblt
      · rw [hcs] at hceq
        injection hceq with hcb
        subst hcb
        refine Or.inl ⟨hbs, fun d hd => ?_⟩
        rcases List.mem_cons.mp hd with rfl | hd
        · exact hble
        · exact hall d hd
    · have key : a.2 < c.2 ∧ ∀ bst, best = some bst → bst.2 < c.2 := by
        rcases chainStep_cases best a with ⟨ha10, hcs⟩ | ⟨ha10, hbn, hcs⟩ |
          ⟨b0, ha10, hbs, hblt, hcs⟩ | ⟨b0, ha10, hbs, hble, hcs⟩
        · refine ⟨by omega, fun bst hbst => hlt bst ?_⟩
          rw [hcs, hbst]
        · exact ⟨hlt a hcs, by simp [hbn]⟩
        · have haa : a.2 < c.2 := hlt a hcs
          refine ⟨haa, fun bst hbst => ?_⟩
          rw [hbs] at hbst
          injection hbst with hb0
          cases hb0
          omega
        · have hbb : b0.2 < c.2 := hlt b0 hcs
          refine ⟨by omega, fun bst hbst => ?_⟩
          rw [hbs] at hbst
          injection hbst with hb0
          cases hb0
          omega
      obtain ⟨ha, hbest⟩ := key
      refine Or.inr ⟨a :: l₁, l₂, by rw [heq, List.cons_append], hc10, hbest,
        fun d hd => ?_, hl₂⟩
      rcases List.mem_cons.mp hd with rfl | hd
      · exact ha
      · exact hl₁ d hd

theorem bestCand_spec {α : Type} {l : List (α × Nat)} {c : α × Nat}
    (h : bestCand l = some c) :
    ∃ l₁ l₂, l = l₁ ++ c :: l₂ ∧ 10 ≤ c.2 ∧
      (∀ d ∈ l₁, d.2 < c.2) ∧ (∀ d ∈ l₂, d.2 ≤ c.2) := by
  rcases bestCandAux_spec l none c (by simp) h with ⟨hceq, _⟩ |
    ⟨l₁, l₂, heq, h10, _, hl₁, hl₂⟩
  · exact absurd hceq (by simp)
  · exact ⟨l₁, l₂, heq, h10, hl₁, hl₂⟩

theorem bestCand_eq_none {α : Type} {l : List (α × Nat)} :
    bestCand l = none ↔ ∀ c ∈ l, c.2 < 10 := by
  rw [bestCand, bestCandAux_eq_none]
  simp

theorem bestCand_mem {α : Type} {l : List (α × Nat)} {c : α × Nat}
    (h : bestCand l = some c) : c ∈ l := by
  obtain ⟨l₁, l₂, heq, -, -, -⟩ := bestCand_spec h
  rw [heq]
  exact List.mem_append_right l₁ (List.mem_cons_self c l₂)

theorem bestCand_max {α : Type} {l : List (α × Nat)} {c : α × Nat}
    (h : bestCand l = some c) : ∀ d ∈ l, d.2 ≤ c.2 := by
  obtain ⟨l₁, l₂, heq, h10, hl₁, hl₂⟩ := bestCand_spec h
  intro d hd
  rw [heq] at hd
  rcases List.mem_append.mp hd with hd | hd
  · have := hl₁ d hd
    omega
  · rcases List.mem_cons.mp hd with rfl | hd
    · exact le_refl _
    · exact hl₂ d hd

/-- An unlabeled rectangular grid as loaded by `pd.read_excel(..., header=None)`
or as one table returned by `pd.read_html`: `ncols` is the frame's column
count and a row shorter than `ncols` reads as NaN cells, as pandas pads
ragged input. -/
structure Grid where
  ncols : Nat
  rows : List (List Cell)
  deriving DecidableEq

/-- Cell access `raw.iloc[row, j]` with NaN for a missing cell. -/
def cellAt (r : List Cell) (j : Nat) : Cell := r.getD j Cell.blank

/-- The keep rule shared by the v2 normalizer and both detector-based
normalizers: keep a row only when BOTH the date cell and the value cell
parse (`dropna(subset=["period", "value"])`), never defaulting either. -/
def keepBoth (x : Cell × Cell) : Option Obs :=
  (parseDate x.1).bind (fun d => (parseNum x.2).map (fun v => Obs.mk d (some v)))

theorem keepBoth_value {x : Cell × Cell} {o : Obs} (h : keepBoth x = some o) :
    o.value.isSome := by
  simp only [keepBoth, Option.bind_eq_some, Option.map_eq_some'] at h
  obtain ⟨d, hd, v, hv, ho⟩ := h
  rw [← ho]
  rfl

/-- The candidate frame for the ordered column pair `(date_idx, val_idx)`:
coerce the date column and the value column and drop every row where either
fails to parse. -/
def pairRows (g : Grid) (di vi : Nat) : Series :=
  g.rows.filterMap (fun r => keepBoth (cellAt r di, cellAt r vi))

theorem pairRows_value {g : Grid} {di vi : Nat} :
    ∀ o ∈ pairRows g di vi, o.value.isSome := by
  intro o ho
  rcases List.mem_filterMap.mp ho with ⟨r, hr, hk⟩
  exact keepBoth_value hk

/-- The candidate's score: its count of valid rows. -/
def pairScore (g : Grid) (p : Nat × Nat) : Nat := (pairRows g p.1 p.2).length

/-- The ordered pairs of distinct column indices in iteration order:
`itertools.product(range(ncols), repeat=2)` skipping the diagonal. -/
def orderedPairs (n : Nat) : List (Nat × Nat) :=
  ((List.range n).flatMap (fun i => (List.range n).map (fun j => (i, j)))).filter
    (fun p => decide (p.1 ≠ p.2))

theorem mem_orderedPairs {n : Nat} {p : Nat × Nat} :
    p ∈ orderedPairs n ↔ p.1 < n ∧ p.2 < n ∧ p.1 ≠ p.2 := by
  cases p with
  | mk i j =>
    constructor
    · intro h
      obtain ⟨hin, hne⟩ := List.mem_filter.mp h
      rcases List.mem_flatMap.mp hin with ⟨i1, hi1, hmap⟩
      rcases List.mem_map.mp hmap with ⟨j1, hj1, hpj⟩
      cases hpj
      exact ⟨List.mem_range.mp hi1, List.mem_range.mp hj1, by simpa using hne⟩
    · rintro ⟨h1, h2, h3⟩
      refine List.mem_filter.mpr ⟨?_, by simpa using h3⟩
      exact List.mem_flatMap.mpr ⟨i, List.mem_range.mpr h1,
        List.mem_map.mpr ⟨j, List.mem_range.mpr h2, rfl⟩⟩

/-- The scored candidates of `_df_from_hist_xls`'s detector loop, in
evaluation order. -/
def candScores (g : Grid) : List ((Nat × Nat) × Nat) :=
  (orderedPairs g.ncols).map (fun p => (p, pairScore g p))

/-- The detector's selection for one grid: the chosen
`(date_idx, val_idx)` pair with its score, `none` when no pair reaches
the plausibility floor of 10 valid rows. -/
def detectPair (g : Grid) : Option ((Nat × Nat) × Nat) := bestCand (candScores g)

/-- Model of `_df_from_hist_xls` (fetch.py lines 106-132): pick the best
eligible column pair; if none reaches the floor, fall back to columns
(0, 1) with the same parse-and-drop rule and no floor. -/
def df_from_hist_xls (g : Grid) : Series :=
  match detectPair g with
  | some pr => sortByPeriod (pairRows g pr.1.1 pr.1.2)
  | none => sortByPeriod (pairRows g 0 1)

/-- The scored candidates of `_df_from_hist_html`'s detector loops: tables
outer, ordered pairs inner, one running best across all tables. -/
def htmlCands (ts : List Grid) : List ((Grid × Nat × Nat) × Nat) :=
  ts.flatMap (fun t => (orderedPairs t.ncols).map (fun p => ((t, p.1, p.2), pairScore t p)))

/-- The best candidate across all tables of a history page. -/
def htmlBest (ts : List Grid) : Option ((Grid × Nat × Nat) × Nat) :=
  bestCand (htmlCands ts)

/-- Model of `_df_from_hist_html` (fetch.py lines 135-160): best pair across
all tables; when no pair reaches the floor the function returns the EMPTY
frame — it has no fallback to columns (0, 1). -/
def df_from_hist_html (ts : List Grid) : Series :=
  match htmlBest ts with
  | some pr => sortByPeriod (pairRows pr.1.1 pr.1.2.1 pr.1.2.2)
  | none => []

/-- C7: the Column-Pair Detector considers only ordered pairs of distinct
column indices with valid-row count at least 10 as eligible, selects the
eligible pair with the maximum score, and resolves ties by first-found order
among the evaluated pairs (every candidate strictly earlier in evaluation
order scores strictly less); when it selects nothing, every pair scores
below the floor, so a grid with one pair at score 15 and the rest below 10
always yields that pair. -/
theorem c7_detector (g : Grid) :
    (detectPair g = none → ∀ q ∈ orderedPairs g.ncols, pairScore g q < 10) ∧
    (∀ p s, detectPair g = some (p, s) →
      s = pairScore g p ∧ 10 ≤ s ∧ p ∈ orderedPairs g.ncols ∧ p.1 ≠ p.2 ∧
      (∀ q ∈ orderedPairs g.ncols, pairScore g q ≤ s) ∧
      ∃ l₁ l₂, candScores g = l₁ ++ (p, s) :: l₂ ∧ ∀ d ∈ l₁, d.2 < s) := by
  constructor
  · intro h q hq
    have hm := bestCand_eq_none.mp h (q, pairScore g q)
      (List.mem_map.mpr ⟨q, hq, rfl⟩)
    simpa using hm
  · intro p s h
    obtain ⟨l₁, l₂, heq, h10, hl₁, hl₂⟩ := bestCand_spec h
    have hmem : (p, s) ∈ candScores g := bestCand_mem h
    obtain ⟨q, hq, hqe⟩ := List.mem_map.mp hmem
    rw [Prod.mk.injEq] at hqe
    obtain ⟨h1, h2⟩ := hqe
    subst h1
    subst h2
    refine ⟨rfl, h10, hq, (mem_orderedPairs.mp hq).2.2, fun q1 hq1 => ?_,
      l₁, l₂, heq, hl₁⟩
    exact bestCand_max h (q1, pairScore g q1) (List.mem_map.mpr ⟨q1, hq1, rfl⟩)

/-- A grid with a planted valid column pair (0, 1) scoring 15 while the only
other ordered pair (1, 0) scores 0. -/
def plantedGrid : Grid :=
  Grid.mk 2 ((List.range 15).map (fun k => [Cell.date (Int.ofNat k), Cell.num 1]))

/-- Witness for C7: on the planted grid the detector selects pair (0, 1)
with score 15, and the competing pair (1, 0) indeed scores at most 15. -/
theorem c7_witness : pairScore plantedGrid (1, 0) ≤ 15 :=
  ((c7_detector plantedGrid).2 (0, 1) 15 (by decide)).2.2.2.2.1 (1, 0) (by decide)

/-- C5 counterexample: a rendered-HTML page with a single 3-row table where
no pair reaches the floor of 10. The claim says the normalizer falls back to
columns (0, 1) with the parse-and-drop rule (which would give 3 rows), but
`_df_from_hist_html` returns the empty frame instead. -/
theorem c5_counterexample :
    htmlBest [Grid.mk 2 [[Cell.date 0, Cell.num 1], [Cell.date 1, Cell.num 2],
        [Cell.date 2, Cell.num 3]]] = none ∧
    df_from_hist_html [Grid.mk 2 [[Cell.date 0, Cell.num 1], [Cell.date 1, Cell.num 2],
        [Cell.date 2, Cell.num 3]]] = [] ∧
    sortByPeriod (pairRows (Grid.mk 2 [[Cell.date 0, Cell.num 1], [Cell.date 1, Cell.num 2],
        [Cell.date 2, Cell.num 3]]) 0 1) ≠ [] := by
  refine ⟨rfl, rfl, ?_⟩
  decide

/-- C5 (amended): when no ordered column pair reaches the plausibility floor
of 10 valid rows — equivalently, when the detector selects nothing — the
legacy-spreadsheet normalizer falls back to treating columns 0 and 1 as
(date, value) with the same parse-and-drop rule and without the floor, and
the rendered-HTML-table normalizer returns an empty Series instead of
falling back; neither raises an exception (both are total). -/
theorem c5_floor_fallback (g : Grid) (ts : List Grid) :
    (detectPair g = none → df_from_hist_xls g = sortByPeriod (pairRows g 0 1)) ∧
    (htmlBest ts = none → df_from_hist_html ts = []) ∧
    (detectPair g = none ↔ ∀ q ∈ orderedPairs g.ncols, pairScore g q < 10) := by
  refine ⟨fun h => ?_, fun h => ?_, ?_⟩
  · unfold df_from_hist_xls
    rw [h]
  · unfold df_from_hist_html
    rw [h]
  · rw [detectPair, bestCand_eq_none]
    constructor
    · intro h q hq
      simpa using h (q, pairScore g q) (List.mem_map.mpr ⟨q, hq, rfl⟩)
    · intro h c hc
      obtain ⟨q, hq, hqe⟩ := List.mem_map.mp hc
      rw [← hqe]
      simpa using h q hq

/-- Witness for C5 (amended): a 2-row spreadsheet grid where no pair reaches
the floor; the normalizer equals the columns-(0,1) fallback frame. -/
theorem c5_witness :
    df_from_hist_xls (Grid.mk 2 [[Cell.date 0, Cell.num 1], [Cell.date 3, Cell.num 2]]) =
      sortByPeriod (pairRows (Grid.mk 2 [[Cell.date 0, Cell.num 1],
        [Cell.date 3, Cell.num 2]]) 0 1) :=
  (c5_floor_fallback (Grid.mk 2 [[Cell.date 0, Cell.num 1], [Cell.date 3, Cell.num 2]])
    []).1 (by decide)

/-
Structured-JSON normalizers. A v1 payload is the `series` array of the
response, each series carrying its `data` list of `[period, value]` pairs;
a v2 payload is the flat `response.data` record list projected to its
`period` and `value` fields.
-/

/-- The `series` array of an EIA v1 `/series` response; each entry is that
series' `data` list of `[period-string, value]` pairs. -/
structure V1Payload where
  series : List (List (Cell × Cell))
  deriving DecidableEq

/-- The `response.data` records of an EIA v2 response, projected to their
`period` and `value` fields. -/
structure V2Payload where
  data : List (Cell × Cell)
  deriving DecidableEq

/-- The v1 keep rule: `dropna(subset=["period"])` only — a row whose period
parses is KEPT even when its value fails to parse (value becomes NaN). -/
def keepV1 (x : Cell × Cell) : Option Obs :=
  (parseDate x.1).map (fun d => Obs.mk d (parseNum x.2))

/-- Model of `_df_from_v1_series` (fetch.py lines 74-88): take the first
series' data, coerce both columns, drop rows with unparseable period only,
and sort ascending by period. -/
def df_from_v1_series (p : V1Payload) : Series :=
  match p.series with
  | [] => []
  | s :: _ => sortByPeriod (s.filterMap keepV1)

/-- Model of `_df_from_v2_price` (fetch.py lines 91-103): coerce both
columns, drop rows where either fails to parse, sort ascending by period. -/
def df_from_v2_price (p : V2Payload) : Series :=
  sortByPeriod (p.data.filterMap keepBoth)

theorem df_v1_eq (p : V1Payload) :
    df_from_v1_series p = sortByPeriod ((p.series.headD []).filterMap keepV1) := by
  cases p with
  | mk s =>
    cases s with
    | nil => rfl
    | cons a t => rfl

theorem df_xls_cases (g : Grid) :
    ∃ di vi, df_from_hist_xls g = sortByPeriod (pairRows g di vi) := by
  cases h : detectPair g with
  | none =>
    refine ⟨0, 1, ?_⟩
    unfold df_from_hist_xls
    rw [h]
  | some pr =>
    refine ⟨pr.1.1, pr.1.2, ?_⟩
    unfold df_from_hist_xls
    rw [h]

theorem df_html_cases (ts : List Grid) :
    df_from_hist_html ts = [] ∨
    ∃ t di vi, t ∈ ts ∧ df_from_hist_html ts = sortByPeriod (pairRows t di vi) := by
  cases h : htmlBest ts with
  | none =>
    left
    unfold df_from_hist_html
    rw [h]
  | some pr =>
    right
    have hm := bestCand_mem h
    rcases List.mem_flatMap.mp hm with ⟨t, ht, hmm⟩
    rcases List.mem_map.mp hmm with ⟨q, hq, hqe⟩
    subst hqe
    refine ⟨t, q.1, q.2, ht, ?_⟩
    unfold df_from_hist_html
    rw [h]

/-- C4 counterexample: a v1 payload whose single row has a parseable period
and an unparseable value. `_df_from_v1_series` drops NaN rows by the period
column only (`dropna(subset=["period"])`), so the row is KEPT with a NaN
value, contradicting the claim that every normalizer returns only rows where
both fields parsed successfully. -/
theorem c4_counterexample :
    df_from_v1_series (V1Payload.mk [[(Cell.date 0, Cell.blank)]]) = [Obs.mk 0 none] := rfl

/-- C4 (amended): every normalizer returns a Series sorted ascending by
period; the v2, legacy-spreadsheet, and rendered-HTML normalizers keep
exactly the rows where both fields parsed (their outputs are permutations of
the both-fields keep rule and every kept value is present); the v1
normalizer instead drops only rows whose PERIOD fails to parse, keeping
rows whose value fails as NaN — rows are dropped, never defaulted. -/
theorem c4_normalizers (p1 : V1Payload) (p2 : V2Payload) (g : Grid) (ts : List Grid) :
    (df_from_v1_series p1).Pairwise obsLe ∧
    (df_from_v2_price p2).Pairwise obsLe ∧
    (df_from_hist_xls g).Pairwise obsLe ∧
    (df_from_hist_html ts).Pairwise obsLe ∧
    (df_from_v1_series p1).Perm ((p1.series.headD []).filterMap keepV1) ∧
    (df_from_v2_price p2).Perm (p2.data.filterMap keepBoth) ∧
    (∀ o ∈ df_from_v2_price p2, o.value.isSome) ∧
    (∃ di vi, (df_from_hist_xls g).Perm (pairRows g di vi)) ∧
    (∀ o ∈ df_from_hist_xls g, o.value.isSome) ∧
    (∀ o ∈ df_from_hist_html ts, o.value.isSome) := by
  obtain ⟨di, vi, hxls⟩ := df_xls_cases g
  refine ⟨?_, sortByPeriod_sorted _, ?_, ?_, ?_, sortByPeriod_perm _, ?_, ?_, ?_, ?_⟩
  · rw [df_v1_eq]
    exact sortByPeriod_sorted _
  · rw [hxls]
    exact sortByPeriod_sorted _
  · rcases df_html_cases ts with h | ⟨t, di2, vi2, ht, h⟩
    · rw [h]
      exact List.Pairwise.nil
    · rw [h]
      exact sortByPeriod_sorted _
  · rw [df_v1_eq]
    exact sortByPeriod_perm _
  · intro o ho
    have hm : o ∈ p2.data.filterMap keepBoth :=
      (sortByPeriod_perm _).mem_iff.mp ho
    rcases List.mem_filterMap.mp hm with ⟨r, hr, hk⟩
    exact keepBoth_value hk
  · exact ⟨di, vi, hxls ▸ sortByPeriod_perm _⟩
  · intro o ho
    rw [hxls] at ho
    exact pairRows_value o ((sortByPeriod_perm _).mem_iff.mp ho)
  · intro o ho
    rcases df_html_cases ts with h | ⟨t, di2, vi2, ht, h⟩
    · rw [h] at ho
      exact absurd ho (List.not_mem_nil o)
    · rw [h] at ho
      exact pairRows_value o ((sortByPeriod_perm _).mem_iff.mp ho)

/-- Witness for C4 (amended): the v2 normalizer's output on a concrete
payload is a permutation of the rows where both fields parsed. -/
theorem c4_witness :
    (df_from_v2_price (V2Payload.mk [(Cell.date 3, Cell.num 5), (Cell.blank, Cell.num 7)])).Perm
      (([(Cell.date 3, Cell.num 5), (Cell.blank, Cell.num 7)] :
        List (Cell × Cell)).filterMap keepBoth) :=
  (c4_normalizers (V1Payload.mk []) (V2Payload.mk [(Cell.date 3, Cell.num 5),
    (Cell.blank, Cell.num 7)]) (Grid.mk 0 []) []).2.2.2.2.2.1

/-
Temporal Aligner: `hh.set_index("period").resample("W-FRI").mean()`
(fetch.py lines 284-291). A `W-FRI` resample bins the index into weekly
intervals that are right-closed and right-labelled on Fridays, generates one
bin for EVERY week from the first observation's anchor through the last
observation's anchor, and `.mean()` of an empty bin is NaN (and skips NaN
values inside a bin). Dates ≡ 4 (mod 7) are the Fridays of the model.
-/

/-- The week-ending Friday anchor of a date: the first date `≥ d` that is
≡ 4 (mod 7). -/
def weekAnchor (d : Int) : Int := d + (4 - d) % 7

/-- `df["period"].min()`: `none` on an empty frame. -/
def periodsMin : Series → Option Int
  | [] => none
  | o :: t => some ((t.map Obs.period).foldl min o.period)

/-- `df["period"].max()`: `none` on an empty frame. -/
def periodsMax : Series → Option Int
  | [] => none
  | o :: t => some ((t.map Obs.period).foldl max o.period)

/-- The source Observations falling in the week ending at anchor `a`. -/
def binObs (s : Series) (a : Int) : Series :=
  s.filter (fun o => decide (weekAnchor o.period = a))

/-- The `.mean()` of one weekly bin: NaN values are skipped, and an empty
bin (or a bin of only NaN values) yields NaN. -/
def binMean (s : Series) (a : Int) : Option Rat :=
  let vals := (binObs s a).filterMap (fun o => o.value)
  if vals.length = 0 then none else some (vals.sum / (vals.length : Rat))

/-- The generated weekly anchors from `lo` through `hi` (both anchors),
stepping 7 days. -/
def anchorsBetween (lo hi : Int) : List Int :=
  (List.range (((hi - lo) / 7).toNat + 1)).map (fun (k : Nat) => lo + 7 * (k : Int))

/-- Model of the `W-FRI` resample-and-mean of a daily price frame: one row
per generated anchor, whose value is the bin's mean (NaN for an empty bin). -/
def resampleWFRI (s : Series) : Series :=
  match periodsMin s, periodsMax s with
  | some lo, some hi =>
    (anchorsBetween (weekAnchor lo) (weekAnchor hi)).map (fun a => Obs.mk a (binMean s a))
  | _, _ => []

theorem foldl_min_le_init (l : List Int) (init : Int) :
    l.foldl min init ≤ init := by
  induction l generalizing init with
  | nil => exact le_refl _
  | cons a t ih => exact le_trans (ih (min init a)) (min_le_left _ _)

theorem foldl_min_le_mem (l : List Int) (init : Int) :
    ∀ x ∈ l, l.foldl min init ≤ x := by
  induction l generalizing init with
  | nil => intro x hx; exact absurd hx (List.not_mem_nil x)
  | cons a t ih =>
    intro x hx
    rcases List.mem_cons.mp hx with rfl | hx
    · exact le_trans (foldl_min_le_init t (min init x)) (min_le_right _ _)
    · exact ih (min init a) x hx

theorem foldl_max_ge_init (l : List Int) (init : Int) :
    init ≤ l.foldl max init := by
  induction l generalizing init with
  | nil => exact le_refl _
  | cons a t ih => exact le_trans (le_max_left _ _) (ih (max init a))

theorem foldl_max_ge_mem (l : List Int) (init : Int) :
    ∀ x ∈ l, x ≤ l.foldl max init := by
  induction l generalizing init with
  | nil => intro x hx; exact absurd hx (List.not_mem_nil x)
  | cons a t ih =>
    intro x hx
    rcases List.mem_cons.mp hx with rfl | hx
    · exact le_trans (le_max_right _ _) (foldl_max_ge_init t (max init x))
    · exact ih (max init a) x hx

theorem periodsMin_le {s : Series} {lo : Int} (h : periodsMin s = some lo) :
    ∀ o ∈ s, lo ≤ o.period := by
  cases s with
  | nil => exact absurd h (by simp [periodsMin])
  | cons a t =>
    rw [periodsMin] at h
    injection h with h1
    intro o ho
    rcases List.mem_cons.mp ho with rfl | ho
    · rw [← h1]
      exact foldl_min_le_init (t.map Obs.period) o.period
    · rw [← h1]
      exact foldl_min_le_mem (t.map Obs.period) a.period o.period
        (List.mem_map_of_mem Obs.period ho)

theorem periodsMax_ge {s : Series} {hi : Int} (h : periodsMax s = some hi) :
    ∀ o ∈ s, o.period ≤ hi := by
  cases s with
  | nil => exact absurd h (by simp [periodsMax])
  | cons a t =>
    rw [periodsMax] at h
    injection h with h1
    intro o ho
    rcases List.mem_cons.mp ho with rfl | ho
    · rw [← h1]
      exact foldl_max_ge_init (t.map Obs.period) o.period
    · rw [← h1]
      exact foldl_max_ge_mem (t.map Obs.period) a.period o.period
        (List.mem_map_of_mem Obs.period ho)

theorem weekAnchor_mono {a b : Int} (h : a ≤ b) : weekAnchor a ≤ weekAnchor b := by
  unfold weekAnchor
  omega

theorem weekAnchor_mod (d : Int) : (4 - weekAnchor d) % 7 = 0 := by
  unfold weekAnchor
  omega

theorem mem_anchorsBetween {lo hi a : Int} :
    a ∈ anchorsBetween lo hi ↔
      ∃ k : Nat, k ≤ ((hi - lo) / 7).toNat ∧ a = lo + 7 * (k : Int) := by
  unfold anchorsBetween
  constructor
  · intro h
    rcases List.mem_map.mp h with ⟨k, hk, hka⟩
    exact ⟨k, Nat.lt_succ_iff.mp (List.mem_range.mp hk), hka.symm⟩
  · rintro ⟨k, hk, rfl⟩
    exact List.mem_map.mpr ⟨k, List.mem_range.mpr (Nat.lt_succ_of_le hk), rfl⟩

theorem anchors_mem_of {lo hi a : Int} (h7 : (hi - lo) % 7 = 0)
    (h7a : (a - lo) % 7 = 0) (hla : lo ≤ a) (hah : a ≤ hi) :
    a ∈ anchorsBetween lo hi := by
  rw [mem_anchorsBetween]
  refine ⟨((a - lo) / 7).toNat, ?_, ?_⟩ <;> omega

theorem anchorsBetween_nodup (lo hi : Int) : (anchorsBetween lo hi).Nodup := by
  unfold anchorsBetween
  refine List.Nodup.map ?_ (List.nodup_range _)
  intro x y hxy
  have h2 : lo + 7 * (x : Int) = lo + 7 * (y : Int) := hxy
  omega

/-- C2 counterexample: a daily price series of two observations two weeks
apart. The middle week (anchor 11) contains zero source Observations, yet
the `W-FRI` resample emits a row for it — with a NaN mean — contradicting
the claim that a week with zero source Observations produces no output row
at all. -/
theorem c2_counterexample :
    binObs [Obs.mk 0 (some 1), Obs.mk 14 (some 2)] 11 = [] ∧
    Obs.mk 11 none ∈ resampleWFRI [Obs.mk 0 (some 1), Obs.mk 14 (some 2)] := by
  refine ⟨rfl, ?_⟩
  decide

/-- C2 (amended): for every non-empty daily price series, the `W-FRI`
resample emits at most one row per week-ending Friday anchor; every output
row sits on an anchor (its period is its own week anchor) and carries
exactly the mean of the source Observations of its week, computed by
`binMean` (the arithmetic mean of the week's non-missing values, NaN for a
week with no Observations); and every source Observation's week anchor has
a corresponding output row. Weeks with zero source Observations inside the
observed span get a NaN row — not a zero or interpolated value — rather
than no row. -/
theorem c2_resample (s : Series) (lo hi : Int)
    (hmin : periodsMin s = some lo) (hmax : periodsMax s = some hi) :
    ((resampleWFRI s).map Obs.period).Nodup ∧
    (∀ o ∈ resampleWFRI s, weekAnchor o.period = o.period ∧
      o.value = binMean s o.period) ∧
    (∀ o ∈ s, Obs.mk (weekAnchor o.period) (binMean s (weekAnchor o.period)) ∈
      resampleWFRI s) := by
  have hres : resampleWFRI s =
      (anchorsBetween (weekAnchor lo) (weekAnchor hi)).map
        (fun a => Obs.mk a (binMean s a)) := by
    unfold resampleWFRI
    rw [hmin, hmax]
  refine ⟨?_, ?_, ?_⟩
  · rw [hres, List.map_map]
    have hid : (Obs.period ∘ fun a => Obs.mk a (binMean s a)) = id := by
      funext a
      rfl
    rw [hid, List.map_id]
    exact anchorsBetween_nodup _ _
  · intro o ho
    rw [hres] at ho
    rcases List.mem_map.mp ho with ⟨a, ha, hoa⟩
    subst hoa
    refine ⟨?_, rfl⟩
    obtain ⟨k, hk, hae⟩ := mem_anchorsBetween.mp ha
    have h4 := weekAnchor_mod lo
    show weekAnchor a = a
    unfold weekAnchor at *
    omega
  · intro o ho
    rw [hres]
    refine List.mem_map.mpr ⟨weekAnchor o.period, ?_, rfl⟩
    have h1 : lo ≤ o.period := periodsMin_le hmin o ho
    have h2 : o.period ≤ hi := periodsMax_ge hmax o ho
    have ha1 := weekAnchor_mod lo
    have ha2 := weekAnchor_mod hi
    have ha3 := weekAnchor_mod o.period
    refine anchors_mem_of ?_ ?_ (weekAnchor_mono h1) (weekAnchor_mono h2)
    · omega
    · omega

/-- Witness for C2 (amended) on a concrete two-day series. -/
theorem c2_witness :
    ((resampleWFRI [Obs.mk 0 (some 2), Obs.mk 1 (some 4)]).map Obs.period).Nodup :=
  (c2_resample [Obs.mk 0 (some 2), Obs.mk 1 (some 4)] 0 1 rfl rfl).1

/-
Joiner and public entry: `build_weekly_join` (fetch.py lines 269-322). The
three fetched Series, the one extra v2 pull, and the window bounds are
passed explicitly; the data model guarantees at most one Observation per
period within each input (the pandas inner merge is exactly a per-period
lookup under that invariant).
-/

/-- Look up the Observation at period `p`, as the inner merge does for a
key-unique frame. -/
def lookupPeriod (s : Series) (p : Int) : Option Obs :=
  s.find? (fun o => decide (o.period = p))

/-- One row of the merged dataset, with the renamed value columns. -/
structure Joined where
  period : Int
  salt_bcf : Option Rat
  us_bcf : Option Rat
  henryhub : Option Rat
  deriving DecidableEq

/-- Model of `salt.merge(us, on="period", how="inner").merge(hh_w, ...)`:
a row for each period of `salt` that also occurs in `us` and in `hw`. -/
def innerJoin3 (salt us hw : Series) : List Joined :=
  salt.filterMap (fun o =>
    (lookupPeriod us o.period).bind (fun ob =>
      (lookupPeriod hw o.period).map (fun oc =>
        Joined.mk o.period o.value ob.value oc.value)))

/-- Model of `_daterange_summary` (fetch.py lines 264-267): "empty" is
`none`, otherwise the (min period, max period, row count) triple. -/
def daterange_summary (s : Series) : Option (Int × Int × Nat) :=
  match periodsMin s, periodsMax s with
  | some lo, some hi => some (lo, hi, s.length)
  | _, _ => none

/-- The diagnostic payload of the empty-join RuntimeError: one summary per
joined input plus the requested window. -/
structure Diag where
  saltInfo : Option (Int × Int × Nat)
  usInfo : Option (Int × Int × Nat)
  hhwInfo : Option (Int × Int × Nat)
  window : Int × Int
  deriving DecidableEq

/-- Model of fetch.py lines 284-306: resample a non-empty price frame to
weekly; on an empty one, make one extra v2 pull — a non-empty result is
clipped and resampled, while an empty result or a raised exception is
swallowed and the empty frame is kept. -/
def hhWeekly (hh : Series) (extra : Except Unit Series) (start stop : Int) : Series :=
  if hh.isEmpty then
    match extra with
    | Except.ok hh2 => if hh2.isEmpty then hh else resampleWFRI (clip hh2 start stop)
    | Except.error _ => hh
  else resampleWFRI hh

/-- Model of `build_weekly_join` after the three fetches: weekly-align the
price frame, inner-join the three, and raise the diagnostic RuntimeError
when the merged dataset is empty. -/
def build_weekly_join (salt us hh : Series) (extra : Except Unit Series)
    (start stop : Int) : Except Diag (List Joined) :=
  if (innerJoin3 salt us (hhWeekly hh extra start stop)).isEmpty then
    Except.error (Diag.mk (daterange_summary salt) (daterange_summary us)
      (daterange_summary (hhWeekly hh extra start stop)) (start, stop))
  else Except.ok (innerJoin3 salt us (hhWeekly hh extra start stop))

theorem innerJoin3_nil_right (salt us : Series) : innerJoin3 salt us [] = [] := by
  rw [innerJoin3, List.filterMap_eq_nil_iff]
  intro o ho
  cases hb : lookupPeriod us o.period <;> rfl

/-- C6: the Joiner produces a row for exactly those periods present in all
three inputs (inner join on the period key), and when the merged result is
empty, `build_weekly_join` raises the diagnostic failure carrying, per
joined input, its min-period / max-period / row-count summary (or "empty")
together with the requested window — instead of returning an empty dataset. -/
theorem c6_joiner (salt us hw : Series) :
    (∀ p : Int, (∃ j ∈ innerJoin3 salt us hw, j.period = p) ↔
      ((∃ o ∈ salt, o.period = p) ∧ (∃ o ∈ us, o.period = p) ∧
        (∃ o ∈ hw, o.period = p))) ∧
    (∀ (hh : Series) (extra : Except Unit Series) (start stop : Int),
      hhWeekly hh extra start stop = hw →
      innerJoin3 salt us hw = [] →
      build_weekly_join salt us hh extra start stop =
        Except.error (Diag.mk (daterange_summary salt) (daterange_summary us)
          (daterange_summary hw) (start, stop))) := by
  constructor
  · intro p
    constructor
    · rintro ⟨j, hj, rfl⟩
      rcases List.mem_filterMap.mp hj with ⟨o, ho, hfo⟩
      simp only [Option.bind_eq_some, Option.map_eq_some'] at hfo
      obtain ⟨ob, hob, oc, hoc, hj2⟩ := hfo
      have hobm := List.mem_of_find?_eq_some hob
      have hobp : ob.period = o.period := by
        have := List.find?_some hob
        simpa using this
      have hocm := List.mem_of_find?_eq_some hoc
      have hocp : oc.period = o.period := by
        have := List.find?_some hoc
        simpa using this
      have hjp : j.period = o.period := by rw [← hj2]
      rw [hjp]
      exact ⟨⟨o, ho, rfl⟩, ⟨ob, hobm, hobp⟩, ⟨oc, hocm, hocp⟩⟩
    · rintro ⟨⟨os, hos, hosp⟩, ⟨ou, hou, houp⟩, ⟨oh, hoh, hohp⟩⟩
      have hub : ∃ ob, lookupPeriod us os.period = some ob := by
        rw [← Option.isSome_iff_exists]
        rw [lookupPeriod, List.find?_isSome]
        exact ⟨ou, hou, by simp [hosp, houp]⟩
      have hhb : ∃ oc, lookupPeriod hw os.period = some oc := by
        rw [← Option.isSome_iff_exists]
        rw [lookupPeriod, List.find?_isSome]
        exact ⟨oh, hoh, by simp [hosp, hohp]⟩
      obtain ⟨ob, hob⟩ := hub
      obtain ⟨oc, hoc⟩ := hhb
      refine ⟨Joined.mk os.period os.value ob.value oc.value, ?_, hosp⟩
      refine List.mem_filterMap.mpr ⟨os, hos, ?_⟩
      rw [hob, hoc]
      rfl
  · intro hh extra start stop hhw hempty
    unfold build_weekly_join
    rw [hhw, hempty]
    rfl

/-- Witness for C6: with two matching weekly storage Series and an empty
price chain whose extra pull raises, the join is empty and the diagnostic
error carries both summaries, the "empty" marker, and the window. -/
theorem c6_witness :
    build_weekly_join [Obs.mk 4 (some 1)] [Obs.mk 4 (some 1)] [] (Except.error ()) 0 9 =
      Except.error (Diag.mk (some (4, 4, 1)) (some (4, 4, 1)) none (0, 9)) :=
  (c6_joiner [Obs.mk 4 (some 1)] [Obs.mk 4 (some 1)] []).2 [] (Except.error ()) 0 9
    rfl rfl

/-- C9: whenever the price-series chain yields an empty Series,
`build_weekly_join` makes one extra v2 attempt outside the chain; if that
attempt raises or returns empty, the exception is swallowed, the join
proceeds with the empty price frame, and the surfaced failure is the
empty-join diagnostic — never the fetch exception. -/
theorem c9_extra_attempt (salt us : Series) (extra : Except Unit Series)
    (start stop : Int)
    (h : extra = Except.error () ∨ extra = Except.ok ([] : Series)) :
    hhWeekly [] extra start stop = [] ∧
    build_weekly_join salt us [] extra start stop =
      Except.error (Diag.mk (daterange_summary salt) (daterange_summary us)
        none (start, stop)) := by
  have hwz : hhWeekly [] extra start stop = [] := by
    rcases h with rfl | rfl <;> rfl
  refine ⟨hwz, ?_⟩
  unfold build_weekly_join
  rw [hwz, innerJoin3_nil_right]
  rfl

/-- Witness for C9: the extra pull returns empty, and the surfaced failure
is the diagnostic error with the "empty" price summary. -/
theorem c9_witness :
    build_weekly_join [Obs.mk 4 (some 1)] [Obs.mk 4 (some 2)] [] (Except.ok []) 0 9 =
      Except.error (Diag.mk (some (4, 4, 1)) (some (4, 4, 1)) none (0, 9)) :=
  (c9_extra_attempt [Obs.mk 4 (some 1)] [Obs.mk 4 (some 2)] (Except.ok []) 0 9
    (Or.inr rfl)).2

end Eia
